import Mathlib

/-!
Verification of the schema-translation and dependency-ordering engine of the
MSSQL-to-PostgreSQL migration tool (type-mapper.js and the migration script).

The JavaScript source is shallowly embedded: strings are Lean `String`s,
nullable numbers are `Option Int`, the JS `Set`/`Map` objects of the
dependency resolver become insertion-ordered lists / association lists, and
the recursive depth-first visit is given an explicit fuel argument together
with an `ok` flag recording that the fuel was never exhausted (the source
recursion is unbounded; the fuel bound given to it is proved sufficient).
-/

/-! ## String helpers (JS string primitives used by the source) -/

/-- JS `String.prototype.toLowerCase` (ASCII range, which is all the source uses). -/
def toLowerStr (s : String) : String := String.mk (s.data.map Char.toLower)

/-- JS `String.prototype.trim`: drop whitespace at both ends. -/
def trimStr (s : String) : String :=
  String.mk (((s.data.dropWhile Char.isWhitespace).reverse.dropWhile Char.isWhitespace).reverse)

/-- Auxiliary for JS `String.prototype.startsWith`. -/
def startsWithChars : List Char → List Char → Bool
  | [], _ => true
  | _ :: _, [] => false
  | p :: ps, c :: cs => p = c && startsWithChars ps cs

/-- JS `s.startsWith(pre)`. -/
def startsWithStr (s pre : String) : Bool := startsWithChars pre.data s.data

/-- JS `String.prototype.split('.')` on the character-list level: splits at every
`'.'`, keeping empty segments, as the JS method does. -/
def splitDotChars : List Char → List (List Char)
  | [] => [[]]
  | c :: rest =>
    if c = '.' then [] :: splitDotChars rest
    else
      match splitDotChars rest with
      | [] => [[c]]
      | l :: ls => (c :: l) :: ls

/-- JS `name.split('.')`. -/
def splitDot (s : String) : List String := (splitDotChars s.data).map String.mk

/-- The part of a string before its first `'.'` (the whole string if none). -/
def truncDot (s : String) : String := String.mk (s.data.takeWhile (· ≠ '.'))

/-- Lookup in a JS object literal used as a string-to-string map. -/
def lookupStr : List (String × String) → String → Option String
  | [], _ => none
  | (k, v) :: rest, key => if k = key then some v else lookupStr rest key

/-- JS regex test `/^-?\d+(\.\d+)?$/.test(value)`. -/
def isNumericLiteral (s : String) : Bool :=
  let l := match s.data with
           | '-' :: rest => rest
           | l => l
  let ds := l.takeWhile Char.isDigit
  let rest := l.dropWhile Char.isDigit
  !ds.isEmpty &&
    (rest.isEmpty ||
      (match rest with
       | '.' :: frac => !frac.isEmpty && frac.all Char.isDigit
       | _ => false))

/-! ## type-mapper.js -/

/-- The `TYPE_MAPPINGS` object literal of type-mapper.js, in source order. -/
def TYPE_MAPPINGS : List (String × String) :=
  [ ("bigint", "BIGINT")
  , ("int", "INTEGER")
  , ("smallint", "SMALLINT")
  , ("tinyint", "SMALLINT")
  , ("bit", "BOOLEAN")
  , ("decimal", "DECIMAL")
  , ("numeric", "NUMERIC")
  , ("money", "DECIMAL(19,4)")
  , ("smallmoney", "DECIMAL(10,4)")
  , ("float", "DOUBLE PRECISION")
  , ("real", "REAL")
  , ("date", "DATE")
  , ("datetime", "TIMESTAMP")
  , ("datetime2", "TIMESTAMP")
  , ("datetimeoffset", "TIMESTAMP WITH TIME ZONE")
  , ("smalldatetime", "TIMESTAMP")
  , ("time", "TIME")
  , ("char", "CHAR")
  , ("varchar", "VARCHAR")
  , ("text", "TEXT")
  , ("nchar", "CHAR")
  , ("nvarchar", "VARCHAR")
  , ("ntext", "TEXT")
  , ("binary", "BYTEA")
  , ("varbinary", "BYTEA")
  , ("image", "BYTEA")
  , ("uniqueidentifier", "UUID")
  , ("xml", "XML")
  , ("sql_variant", "TEXT")
  , ("hierarchyid", "TEXT")
  , ("geometry", "TEXT")
  , ("geography", "TEXT")
  , ("rowversion", "BYTEA")
  , ("timestamp", "BYTEA")
  , ("sysname", "VARCHAR(128)") ]

/-- `mapDataType` of type-mapper.js, returning the PostgreSQL type string
together with a flag recording whether the final unknown-type branch was
reached (that branch performs `console.warn` in the source).  The JS guard
`maxLength && maxLength > 0` (null and 0 are falsy) is exactly `0 < l` on a
present value; `Math.floor(x / 2)` is `Int.fdiv x 2`. -/
def mapDataTypeImpl (mssqlType : String)
    (maxLength precision scale : Option Int) : String × Bool :=
  let typeLower := trimStr (toLowerStr mssqlType)
  if (typeLower = "varchar" ∨ typeLower = "nvarchar") ∧ maxLength = some (-1) then
    ("TEXT", false)
  else if typeLower = "varbinary" ∧ maxLength = some (-1) then
    ("BYTEA", false)
  else if typeLower = "decimal" ∨ typeLower = "numeric" then
    match precision, scale with
    | some p, some sc => ("NUMERIC(" ++ toString p ++ "," ++ toString sc ++ ")", false)
    | some p, none => ("NUMERIC(" ++ toString p ++ ")", false)
    | none, _ => ("NUMERIC", false)
  else if typeLower = "char" ∨ typeLower = "nchar" then
    match maxLength with
    | some l =>
      if 0 < l then
        ("CHAR(" ++ toString (if typeLower = "nchar" then Int.fdiv l 2 else l) ++ ")", false)
      else ("CHAR(1)", false)
    | none => ("CHAR(1)", false)
  else if typeLower = "varchar" ∨ typeLower = "nvarchar" then
    match maxLength with
    | some l =>
      if 0 < l then
        ("VARCHAR(" ++ toString (if typeLower = "nvarchar" then Int.fdiv l 2 else l) ++ ")", false)
      else ("VARCHAR", false)
    | none => ("VARCHAR", false)
  else if typeLower = "binary" ∨ typeLower = "varbinary" then
    ("BYTEA", false)
  else if typeLower = "float" then
    match precision with
    | some p => if p ≤ 24 then ("REAL", false) else ("DOUBLE PRECISION", false)
    | none => ("DOUBLE PRECISION", false)
  else if typeLower = "datetime2" then
    match scale with
    | some sc => if 0 ≤ sc ∧ sc ≤ 6 then ("TIMESTAMP(" ++ toString sc ++ ")", false)
                 else ("TIMESTAMP", false)
    | none => ("TIMESTAMP", false)
  else if typeLower = "time" then
    match scale with
    | some sc => if 0 ≤ sc ∧ sc ≤ 6 then ("TIME(" ++ toString sc ++ ")", false)
                 else ("TIME", false)
    | none => ("TIME", false)
  else if typeLower = "datetimeoffset" then
    match scale with
    | some sc => if 0 ≤ sc ∧ sc ≤ 6 then ("TIMESTAMP(" ++ toString sc ++ ") WITH TIME ZONE", false)
                 else ("TIMESTAMP WITH TIME ZONE", false)
    | none => ("TIMESTAMP WITH TIME ZONE", false)
  else
    match lookupStr TYPE_MAPPINGS typeLower with
    | some mapped => (mapped, false)
    | none => ("TEXT", true)

/-- The PostgreSQL type string returned by `mapDataType`. -/
def mapDataType (mssqlType : String) (maxLength precision scale : Option Int) : String :=
  (mapDataTypeImpl mssqlType maxLength precision scale).1

/-- Whether `mapDataType` reached its unknown-type branch (the branch that
performs `console.warn` in the source). -/
def mapDataTypeWarns (mssqlType : String) (maxLength precision scale : Option Int) : Bool :=
  (mapDataTypeImpl mssqlType maxLength precision scale).2

/-- The value of the migration script's `stats.warnings` counter after a call
to `mapDataType`, given its value `w` before the call: `mapDataType` lives in
type-mapper.js, has no access to the `stats` object of the migration script
and performs no counter update of any kind, so the counter is unchanged. -/
def statsWarningsAfterMapDataType (w : Nat) (_mssqlType : String)
    (_maxLength _precision _scale : Option Int) : Nat := w

/-- The `functionMappings` object literal of `convertDefaultValue`, in source order. -/
def functionMappings : List (String × String) :=
  [ ("getdate()", "CURRENT_TIMESTAMP")
  , ("getutcdate()", "CURRENT_TIMESTAMP AT TIME ZONE 'UTC'")
  , ("sysdatetime()", "CURRENT_TIMESTAMP")
  , ("sysutcdatetime()", "CURRENT_TIMESTAMP AT TIME ZONE 'UTC'")
  , ("sysdatetimeoffset()", "CURRENT_TIMESTAMP")
  , ("newid()", "gen_random_uuid()")
  , ("newsequentialid()", "gen_random_uuid()")
  , ("user_name()", "CURRENT_USER")
  , ("suser_sname()", "CURRENT_USER")
  , ("host_name()", "inet_client_addr()") ]

/-- JS `defaultValue.replace(/^\(+|\)+$/g, '')`: one maximal run of `'('`
removed at the start and one maximal run of `')'` removed at the end. -/
def stripOuterParens (s : String) : String :=
  String.mk (((s.data.dropWhile (· = '(')).reverse.dropWhile (· = ')')).reverse)

/-- JS `value.replace(/^N'/, "'")`. -/
def stripNationalMarker (s : String) : String :=
  if startsWithStr s "N'" then "'" ++ String.mk (s.data.drop 2) else s

/-- Body of `convertDefaultValue` after the falsy-input check and the
parenthesis stripping, operating on the stripped `value`. -/
def convertStripped (value dataType : String) : Option String :=
  match lookupStr functionMappings (toLowerStr value) with
  | some mapped => some mapped
  | none =>
    if startsWithStr value "N'" ∨ startsWithStr value "'" then
      some (stripNationalMarker value)
    else if isNumericLiteral value then
      some value
    else if (toLowerStr dataType = "boolean" ∨ toLowerStr dataType = "bit") ∧
            (value = "1" ∨ toLowerStr value = "true") then
      some "TRUE"
    else if (toLowerStr dataType = "boolean" ∨ toLowerStr dataType = "bit") ∧
            (value = "0" ∨ toLowerStr value = "false") then
      some "FALSE"
    else some value

/-- `convertDefaultValue` of type-mapper.js (`null` result is `none`; the JS
falsy test `!defaultValue` on a string input is the empty-string test). -/
def convertDefaultValue (defaultValue dataType : String) : Option String :=
  if defaultValue = "" then none
  else convertStripped (stripOuterParens defaultValue) dataType

/-! ## Migration script (dependency resolver and phase structure) -/

/-- A row of the table list returned by `getTables` (`schema_name`, `table_name`). -/
structure TableRef where
  schema_name : String
  table_name : String
deriving DecidableEq, Repr

/-- A grouped foreign-key constraint as returned by `getAllForeignKeys`. -/
structure ForeignKey where
  name : String
  tableSchema : String
  tableName : String
  columns : List String
  referencedSchema : String
  referencedTable : String
  referencedColumns : List String
  deleteAction : String
  updateAction : String
deriving DecidableEq, Repr

/-- The internal key of the resolver: the template literal
`schema_name + "." + table_name`. -/
def tableKey (t : TableRef) : String := t.schema_name ++ "." ++ t.table_name

/-- The referencing side key of a foreign key (`fk.tableSchema + "." + fk.tableName`). -/
def fkSourceKey (fk : ForeignKey) : String := fk.tableSchema ++ "." ++ fk.tableName

/-- The referenced side key of a foreign key. -/
def fkTargetKey (fk : ForeignKey) : String :=
  fk.referencedSchema ++ "." ++ fk.referencedTable

/-- The composed target-side table identifier, the template literal
`schemaName + "_" + tableName` used by `createTable` and `createForeignKeys`. -/
def composeTableIdentifier (schemaName tableName : String) : String :=
  schemaName ++ "_" ++ tableName

/-- The target table identifier an `ALTER TABLE ... ADD CONSTRAINT` statement of
`createForeignKeys` is issued against (`fk.tableSchema + "_" + fk.tableName`). -/
def fkSourceTable (fk : ForeignKey) : String :=
  composeTableIdentifier fk.tableSchema fk.tableName

/-- The sequence of tables on which `createForeignKeys` issues its
`ALTER TABLE ... ADD CONSTRAINT` statements: the loop iterates the
foreign-key list in its given order. -/
def createForeignKeysTableOrder (fks : List ForeignKey) : List String :=
  fks.map fkSourceTable

/-- `Map.prototype.get` on the `dependencies` association list. -/
def alookup : List (String × List String) → String → Option (List String)
  | [], _ => none
  | (k, v) :: rest, key => if k = key then some v else alookup rest key

/-- `Map.prototype.set`: replace the binding if the key exists, else append it. -/
def aset : List (String × List String) → String → List String → List (String × List String)
  | [], key, v => [(key, v)]
  | (k, w) :: rest, key, v =>
    if k = key then (key, v) :: rest else (k, w) :: aset rest key v

/-- In-place update of the set stored under an existing key
(`dependencies.get(source).add(target)`); no-op when the key is absent
(unreachable under the guard of the caller). -/
def aupdate : List (String × List String) → String → (List String → List String) →
    List (String × List String)
  | [], _, _ => []
  | (k, v) :: rest, key, f =>
    if k = key then (k, f v) :: rest else (k, v) :: aupdate rest key f

/-- JS `Set.prototype.add` on an insertion-ordered set. -/
def addTarget (l : List String) (t : String) : List String :=
  if t ∈ l then l else l ++ [t]

/-- One step of the dependency-graph construction loop: a foreign key whose
source and target are both in the migrated set and differ adds the target to
the source's dependency set; every other foreign key is skipped. -/
def fkStep (tableNames : List String) (m : List (String × List String))
    (fk : ForeignKey) : List (String × List String) :=
  if fkSourceKey fk ∈ tableNames ∧ fkTargetKey fk ∈ tableNames ∧
      fkSourceKey fk ≠ fkTargetKey fk then
    aupdate m (fkSourceKey fk) (fun l => addTarget l (fkTargetKey fk))
  else m

/-- The `dependencies` map built by `sortTablesByDependencies`: every table key
is first bound to an empty set, then the foreign-key loop runs `fkStep`. -/
def buildDeps (tables : List TableRef) (fks : List ForeignKey) :
    List (String × List String) :=
  fks.foldl (fkStep (tables.map tableKey))
    (tables.foldl (fun m t => aset m (tableKey t) []) [])

/-- `dependencies.get(tableName) || new Set()` as a total function. -/
def depsOf (tables : List TableRef) (fks : List ForeignKey) (name : String) :
    List String :=
  (alookup (buildDeps tables fks) name).getD []

/-- The mutable state of the depth-first `visit` closure: the output array
`sorted`, the `visited` and `visiting` sets (insertion-ordered), the
`stats.warnings` counter, and an `ok` flag of the embedding recording that the
fuel given to the recursion was never exhausted. -/
structure DfsState where
  ok : Bool
  sorted : List String
  visited : List String
  visiting : List String
  warnings : Nat
deriving DecidableEq, Repr

/-- The state at the start of `sortTablesByDependencies`. -/
def dfsStart : DfsState := ⟨true, [], [], [], 0⟩

/-- The recursive `visit` function of `sortTablesByDependencies`, with explicit
fuel.  A table already `visited` is skipped; a table currently `visiting` is a
cycle: a warning is recorded and the edge skipped; otherwise the table is
marked `visiting`, its dependencies are visited in set-insertion order, and the
table is then moved to `visited` and appended to `sorted`. -/
def visitF (G : String → List String) : Nat → String → DfsState → DfsState
  | 0, _, s => { s with ok := false }
  | n + 1, t, s =>
    if t ∈ s.visited then s
    else if t ∈ s.visiting then { s with warnings := s.warnings + 1 }
    else
      let s1 : DfsState := { s with visiting := s.visiting ++ [t] }
      let s2 := (G t).foldl (fun acc d => visitF G n d acc) s1
      { s2 with
        visiting := s2.visiting.erase t
        visited := s2.visited ++ [t]
        sorted := s2.sorted ++ [t] }

/-- The whole run of `sortTablesByDependencies` up to (and including) the final
state of the top-level loop `for (const table of tables) visit(key(table))`.
The fuel `tables.length + 1` is proved sufficient (`ok` stays `true`). -/
def runSort (tables : List TableRef) (fks : List ForeignKey) : DfsState :=
  let names := tables.map tableKey
  tables.foldl
    (fun st t => visitF (depsOf tables fks) (names.length + 1) (tableKey t) st)
    dfsStart

/-- The reconstruction `const [schema, table] = name.split('.')` at the end of
`sortTablesByDependencies` (a missing component becomes the empty string; the
key always contains at least one dot, so the list has at least two entries). -/
def reconstruct (name : String) : TableRef :=
  { schema_name := (splitDot name).getD 0 ""
  , table_name := (splitDot name).getD 1 "" }

/-- `sortTablesByDependencies` of the migration script. -/
def sortTablesByDependencies (tables : List TableRef) (fks : List ForeignKey) :
    List TableRef :=
  (runSort tables fks).sorted.map reconstruct

/-- The composed identifiers of the data-load order (phase 3 iterates
`sortTablesByDependencies` and addresses each table by its composed
identifier). -/
def dataLoadTableOrder (tables : List TableRef) (fks : List ForeignKey) :
    List String :=
  (sortTablesByDependencies tables fks).map
    (fun t => composeTableIdentifier t.schema_name t.table_name)

/-- The phase structure of `migrate()` that claims about ordering refer to:
phase 2 (`createForeignKeys(foreignKeys)`) issues its ALTER statements in
foreign-key list order, before the resolver runs; phase 3 iterates the
resolver's output. -/
structure MigrationPlan where
  phase2AlterTables : List String
  phase3LoadOrder : List TableRef
deriving Repr

/-- The orderings realized by `migrate()` (lines: phase 2 then
`sortTablesByDependencies` then the phase 3 loop). -/
def migratePlan (tables : List TableRef) (fks : List ForeignKey) : MigrationPlan :=
  { phase2AlterTables := createForeignKeysTableOrder fks
  , phase3LoadOrder := sortTablesByDependencies tables fks }

/-! ## Specification predicates for the resolver -/

/-- Reachability along the dependency graph: `Reaches G a b` holds when there
is a (possibly empty) chain of edges from `a` to `b`, where an edge goes from
a table to a table it references. -/
def Reaches (G : String → List String) (a b : String) : Prop :=
  Relation.ReflTransGen (fun x y => y ∈ G x) a b

/-- The ordering property tracked through the traversal for a fixed edge
`u → v`: once `u` is emitted, `v` has been emitted strictly before it. -/
def GoodPair (u v : String) (s : DfsState) : Prop :=
  u ∈ s.visited → [v, u].Sublist s.sorted

/-- Relation between the state before and after a (fragment of the) traversal:
the `ok` flag and the `visiting` set are restored, `sorted` and `visited` grow
by one common block of fresh names, and every non-cyclic edge's ordering
property is preserved. -/
def VisitOut (G : String → List String) (names : List String)
    (s s' : DfsState) : Prop :=
  s'.ok = s.ok ∧
  s'.visiting = s.visiting ∧
  (∃ D, s'.sorted = s.sorted ++ D ∧ s'.visited = s.visited ++ D ∧ D.Nodup ∧
    ∀ x ∈ D, x ∈ names ∧ x ∉ s.visited ∧ x ∉ s.visiting) ∧
  (∀ u v, v ∈ G u → ¬ Reaches G v u → GoodPair u v s → GoodPair u v s')

/-- Pre-conditions of a call `visitF G f t s`: the argument is a known table,
the `visiting` stack is a duplicate-free chain of known tables disjoint from
`visited` each of which reaches `t`, `visited` and `sorted` coincide, and the
fuel dominates the number of distinct tables not yet on the stack. -/
def VisitInv (G : String → List String) (names : List String) (t : String)
    (s : DfsState) (f : Nat) : Prop :=
  t ∈ names ∧ s.visiting.Nodup ∧ (∀ x ∈ s.visiting, x ∈ names) ∧
  (∀ x ∈ s.visiting, x ∉ s.visited) ∧ s.visited = s.sorted ∧
  (∀ x ∈ s.visiting, Reaches G x t) ∧
  names.dedup.length + 1 ≤ f + s.visiting.length

/-! ## Concrete inputs used by witnesses and counterexamples -/

/-- A foreign key with one column pair and NO_ACTION actions, enough to
exercise the resolver (which reads only the four schema/table fields). -/
def simpleFk (ss st rs rt : String) : ForeignKey :=
  ⟨"fk_" ++ st ++ "_" ++ rt, ss, st, ["rid"], rs, rt, ["id"], "NO_ACTION", "NO_ACTION"⟩

/-- Tables of the spec scenario: A, B, C in schema s. -/
def chainTables : List TableRef := [⟨"s", "a"⟩, ⟨"s", "b"⟩, ⟨"s", "c"⟩]

/-- Edges A→B, B→C of the spec scenario. -/
def chainFks : List ForeignKey := [simpleFk "s" "a" "s" "b", simpleFk "s" "b" "s" "c"]

/-- Tables of the 2-cycle scenario. -/
def cycleTables : List TableRef := [⟨"s", "a"⟩, ⟨"s", "b"⟩]

/-- Edges A→B, B→A of the 2-cycle scenario. -/
def cycleFks : List ForeignKey := [simpleFk "s" "a" "s" "b", simpleFk "s" "b" "s" "a"]

/-- A single foreign-key edge A→B. -/
def pairFks : List ForeignKey := [simpleFk "s" "a" "s" "b"]

/-! ## Helper lemmas on the string primitives -/

theorem splitDotChars_ne_nil (l : List Char) : splitDotChars l ≠ [] := by
  induction l with
  | nil => simp [splitDotChars]
  | cons c rest ih =>
    simp only [splitDotChars]
    split
    · simp
    · cases h : splitDotChars rest <;> simp

theorem splitDotChars_sep (sd td : List Char) (h : '.' ∉ sd) :
    splitDotChars (sd ++ '.' :: td) = sd :: splitDotChars td := by
  induction sd with
  | nil => simp [splitDotChars]
  | cons c rest ih =>
    have hc : c ≠ '.' := fun hc => h (hc ▸ List.mem_cons_self c rest)
    have ih' := ih (fun hm => h (List.mem_cons_of_mem c hm))
    simp only [List.cons_append, splitDotChars, hc, ite_false, List.append_eq, ih']

theorem splitDotChars_headq (l : List Char) :
    (splitDotChars l).head? = some (l.takeWhile (· ≠ '.')) := by
  induction l with
  | nil => rfl
  | cons c rest ih =>
    by_cases hc : c = '.'
    · subst hc; simp [splitDotChars, List.takeWhile_cons]
    · simp only [splitDotChars, hc, ite_false]
      cases h : splitDotChars rest with
      | nil => exact absurd h (splitDotChars_ne_nil rest)
      | cons x xs =>
        rw [h] at ih
        simp only [List.head?_cons, Option.some.injEq] at ih
        simp [List.takeWhile_cons, hc, ih, decide_not]

theorem underscore_split {sd1 td1 sd2 td2 : List Char}
    (h1 : '_' ∉ sd1) (h2 : '_' ∉ sd2)
    (he : sd1 ++ '_' :: td1 = sd2 ++ '_' :: td2) : sd1 = sd2 ∧ td1 = td2 := by
  induction sd1 generalizing sd2 with
  | nil =>
    cases sd2 with
    | nil => simpa using he
    | cons c r =>
      simp only [List.nil_append, List.cons_append, List.cons.injEq] at he
      exact absurd (he.1 ▸ List.mem_cons_self c r) h2
  | cons c r ih =>
    cases sd2 with
    | nil =>
      simp only [List.cons_append, List.nil_append, List.cons.injEq] at he
      exact absurd (he.1 ▸ List.mem_cons_self c r) h1
    | cons c2 r2 =>
      simp only [List.cons_append, List.cons.injEq] at he
      obtain ⟨rfl, he2⟩ := he
      have := ih (fun hm => h1 (List.mem_cons_of_mem _ hm))
        (fun hm => h2 (List.mem_cons_of_mem _ hm)) he2
      exact ⟨by rw [this.1], this.2⟩

theorem key_data (s t : String) : (s ++ "." ++ t).data = s.data ++ '.' :: t.data := by
  simp [String.data_append]

/-- Splitting a resolver key back into its two components is the identity on
the schema part when the schema is dot-free, and truncates the table part at
its first dot. -/
theorem reconstruct_key (s t : String) (h : '.' ∉ s.data) :
    reconstruct (s ++ "." ++ t) = ⟨s, truncDot t⟩ := by
  have hsplit : splitDot (s ++ "." ++ t)
      = String.mk s.data :: (splitDotChars t.data).map String.mk := by
    simp [splitDot, key_data, splitDotChars_sep s.data t.data h]
  cases hx : splitDotChars t.data with
  | nil => exact absurd hx (splitDotChars_ne_nil t.data)
  | cons x xs =>
    have hhead : x = t.data.takeWhile (· ≠ '.') := by
      have := splitDotChars_headq t.data
      rw [hx] at this
      simpa using this
    simp only [reconstruct, hsplit, hx, List.map_cons, List.getD_cons_zero,
      List.getD_cons_succ]
    simp [hhead, truncDot]

/-- `truncDot` is the identity on dot-free strings. -/
theorem truncDot_eq_self (t : String) (h : '.' ∉ t.data) : truncDot t = t := by
  have hw : t.data.takeWhile (· ≠ '.') = t.data := by
    apply List.takeWhile_eq_self_iff.mpr
    intro c hc
    simp only [ne_eq, decide_eq_true_eq]
    intro he
    exact h (he ▸ hc)
  unfold truncDot
  rw [hw]

/-- On a table whose names are dot-free, `reconstruct` inverts `tableKey`. -/
theorem reconstruct_tableKey (t : TableRef) (hs : '.' ∉ t.schema_name.data)
    (ht : '.' ∉ t.table_name.data) : reconstruct (tableKey t) = t := by
  rw [tableKey, reconstruct_key _ _ hs, truncDot_eq_self _ ht]

/-! ## Claims about the type and default translator -/

/-- Claim C4 (code bug): for a recognized function default wrapped in
MSSQL-style parentheses the spec requires the mapped target equivalent
(`CURRENT_TIMESTAMP` for `(getdate())`), but the stripping regex
`/^\(+|\)+$/g` also removes the function call's own closing parenthesis, so
the stripped value is `getdate(`, no key of `functionMappings` (all of which
end in a parenthesis) can ever match, and the raw fragment is returned
verbatim for every data type.  The intended mapping does sit unreachable in
the table (third conjunct). -/
theorem claim_C4_code_eval (dataType : String) :
    convertDefaultValue "(getdate())" dataType = some "getdate(" ∧
    convertDefaultValue "(getdate())" dataType ≠ some "CURRENT_TIMESTAMP" ∧
    lookupStr functionMappings "getdate()" = some "CURRENT_TIMESTAMP" := by
  have h1 : stripOuterParens "(getdate())" = "getdate(" := by decide
  have hmain : convertDefaultValue "(getdate())" dataType = some "getdate(" := by
    unfold convertDefaultValue
    rw [if_neg (by decide), h1]
    unfold convertStripped
    rw [show lookupStr functionMappings (toLowerStr "getdate(") = none from by decide]
    rw [if_neg (by decide)]
    rw [if_neg (by decide)]
    rw [if_neg (by rintro ⟨-, h | h⟩ <;> revert h <;> decide)]
    rw [if_neg (by rintro ⟨-, h | h⟩ <;> revert h <;> decide)]
  refine ⟨hmain, ?_, by decide⟩
  rw [hmain]
  decide

/-- Claim C6 (code bug): for boolean-typed columns the textual defaults `1`
and `0` are supposed to normalize to `TRUE`/`FALSE` (the source even contains
the comparisons `value === '1'` and `value === '0'`), but the numeric-literal
branch runs first and returns them unchanged; only `true`/`false` reach the
boolean normalization. -/
theorem claim_C6_code_eval :
    convertDefaultValue "((1))" "BOOLEAN" = some "1" ∧
    convertDefaultValue "((0))" "BOOLEAN" = some "0" ∧
    convertDefaultValue "((1))" "BOOLEAN" ≠ some "TRUE" ∧
    convertDefaultValue "((0))" "BOOLEAN" ≠ some "FALSE" ∧
    convertDefaultValue "(true)" "BOOLEAN" = some "TRUE" ∧
    convertDefaultValue "(false)" "BOOLEAN" = some "FALSE" := by
  refine ⟨by decide, by decide, ?_, ?_, by decide, by decide⟩ <;> decide

/-- Claim C5, counterexample: for an unknown type name `mapDataType` does
return the unbounded text type, but the run's `stats.warnings` counter is not
incremented (the function has no access to it; its warning is a
`console.warn`), so a counter starting at 0 is still 0, not 1. -/
theorem claim_C5_counterexample :
    mapDataType "dbgeography" none none none = "TEXT" ∧
    ¬ statsWarningsAfterMapDataType 0 "dbgeography" none none none = 1 ∧
    statsWarningsAfterMapDataType 0 "dbgeography" none none none = 0 := by
  refine ⟨by decide, by decide, rfl⟩

/-- Claim C5, amended: `mapDataType` is total; every type name missing from
the static lookup table (which contains all specially-cased names, so a
lookup miss means no rule applies) maps to `TEXT` with the `console.warn`
branch taken, and the `stats.warnings` counter of the run is unchanged by the
call. -/
theorem claim_C5_amended :
    (∀ (t : String) (ml p sc : Option Int),
      lookupStr TYPE_MAPPINGS (trimStr (toLowerStr t)) = none →
      mapDataType t ml p sc = "TEXT" ∧ mapDataTypeWarns t ml p sc = true) ∧
    (∀ (w : Nat) (t : String) (ml p sc : Option Int),
      statsWarningsAfterMapDataType w t ml p sc = w) := by
  constructor
  · intro t ml p sc hlk
    have h1 : trimStr (toLowerStr t) ≠ "varchar" := fun h => by
      rw [h] at hlk; exact absurd hlk (by decide)
    have h2 : trimStr (toLowerStr t) ≠ "nvarchar" := fun h => by
      rw [h] at hlk; exact absurd hlk (by decide)
    have h3 : trimStr (toLowerStr t) ≠ "varbinary" := fun h => by
      rw [h] at hlk; exact absurd hlk (by decide)
    have h4 : trimStr (toLowerStr t) ≠ "decimal" := fun h => by
      rw [h] at hlk; exact absurd hlk (by decide)
    have h5 : trimStr (toLowerStr t) ≠ "numeric" := fun h => by
      rw [h] at hlk; exact absurd hlk (by decide)
    have h6 : trimStr (toLowerStr t) ≠ "char" := fun h => by
      rw [h] at hlk; exact absurd hlk (by decide)
    have h7 : trimStr (toLowerStr t) ≠ "nchar" := fun h => by
      rw [h] at hlk; exact absurd hlk (by decide)
    have h8 : trimStr (toLowerStr t) ≠ "binary" := fun h => by
      rw [h] at hlk; exact absurd hlk (by decide)
    have h9 : trimStr (toLowerStr t) ≠ "float" := fun h => by
      rw [h] at hlk; exact absurd hlk (by decide)
    have h10 : trimStr (toLowerStr t) ≠ "datetime2" := fun h => by
      rw [h] at hlk; exact absurd hlk (by decide)
    have h11 : trimStr (toLowerStr t) ≠ "time" := fun h => by
      rw [h] at hlk; exact absurd hlk (by decide)
    have h12 : trimStr (toLowerStr t) ≠ "datetimeoffset" := fun h => by
      rw [h] at hlk; exact absurd hlk (by decide)
    constructor <;>
      simp only [mapDataType, mapDataTypeWarns, mapDataTypeImpl,
        h1, h2, h3, h4, h5, h6, h7, h8, h9, h10, h11, h12, hlk,
        false_or, false_and, or_self, if_false, ite_false]
  · intro w t ml p sc
    rfl

/-- Claim C5, witness: the CLR type name `dbgeography` is absent from the
lookup table; the amended claim applies to it. -/
theorem claim_C5_witness :
    lookupStr TYPE_MAPPINGS (trimStr (toLowerStr "dbgeography")) = none ∧
    mapDataType "dbgeography" (some 5) none none = "TEXT" ∧
    mapDataTypeWarns "dbgeography" (some 5) none none = true ∧
    statsWarningsAfterMapDataType 7 "dbgeography" (some 5) none none = 7 :=
  ⟨by decide,
   (claim_C5_amended.1 "dbgeography" (some 5) none none (by decide)).1,
   (claim_C5_amended.1 "dbgeography" (some 5) none none (by decide)).2,
   claim_C5_amended.2 7 "dbgeography" (some 5) none none⟩

/-- Claim C8: the `maxLength == -1` sentinel on `varchar`/`nvarchar` maps to
`TEXT` regardless of precision and scale, the declared length of the wide
type `nvarchar` is halved (`Math.floor`), and in particular
`mapDataType("nvarchar", 20)` is `VARCHAR(10)`. -/
theorem claim_C8_sentinel_and_halving :
    (∀ p sc : Option Int,
      mapDataType "varchar" (some (-1)) p sc = "TEXT" ∧
      mapDataType "nvarchar" (some (-1)) p sc = "TEXT") ∧
    mapDataType "varchar" (some (-1)) none none = "TEXT" ∧
    mapDataType "nvarchar" (some 20) none none = "VARCHAR(10)" ∧
    (∀ len : Int, 0 < len →
      mapDataType "nvarchar" (some len) none none
        = "VARCHAR(" ++ toString (Int.fdiv len 2) ++ ")") := by
  refine ⟨?_, by decide, by decide, ?_⟩
  · intro p sc
    have ht : trimStr (toLowerStr "varchar") = "varchar" := by decide
    have ht2 : trimStr (toLowerStr "nvarchar") = "nvarchar" := by decide
    constructor
    · simp [mapDataType, mapDataTypeImpl, ht]
    · simp [mapDataType, mapDataTypeImpl, ht2]
  · intro len hl
    have ht : trimStr (toLowerStr "nvarchar") = "nvarchar" := by decide
    have hne : len ≠ -1 := by omega
    simp [mapDataType, mapDataTypeImpl, ht, hne, hl]

/-- Claim C8, witness: the universally quantified parts applied at concrete
inputs. -/
theorem claim_C8_witness :
    (0 : Int) < 30 ∧ mapDataType "nvarchar" (some 30) none none = "VARCHAR(15)" ∧
    mapDataType "varchar" (some (-1)) (some 3) (some 1) = "TEXT" :=
  ⟨by decide,
   (claim_C8_sentinel_and_halving.2.2.2 30 (by decide)).trans (by decide),
   (claim_C8_sentinel_and_halving.1 (some 3) (some 1)).1⟩

/-- Claim C9, counterexample: the output `CHAR(1)` is not reserved to zero or
absent lengths: the positive length 2 also yields it (through the halving
branch, floor(2 / 2) = 1). -/
theorem claim_C9_counterexample :
    mapDataType "nchar" (some 2) none none = "CHAR(1)" ∧ (0 : Int) < 2 := by
  exact ⟨by decide, by decide⟩

/-- Claim C9, amended: halving uses floor division, so `nchar` with declared
length 1 yields the zero-length `CHAR(0)`; for every positive length the
halving branch runs (producing `CHAR(1)` itself at lengths 2 and 3), and the
`CHAR(1)` fallback branch is taken exactly for absent or non-positive
lengths. -/
theorem claim_C9_amended :
    mapDataType "nchar" (some 1) none none = "CHAR(0)" ∧
    (∀ len : Int, 0 < len →
      mapDataType "nchar" (some len) none none
        = "CHAR(" ++ toString (Int.fdiv len 2) ++ ")") ∧
    (∀ len : Int, len ≤ 0 → mapDataType "nchar" (some len) none none = "CHAR(1)") ∧
    mapDataType "nchar" none none none = "CHAR(1)" := by
  have ht : trimStr (toLowerStr "nchar") = "nchar" := by decide
  refine ⟨by decide, ?_, ?_, by decide⟩
  · intro len hl
    have hne : len ≠ -1 := by omega
    simp [mapDataType, mapDataTypeImpl, ht, hne, hl]
  · intro len hl
    have hl' : ¬ (0 < len) := by omega
    by_cases hne : len = -1
    · subst hne; simp [mapDataType, mapDataTypeImpl, ht]
    · simp [mapDataType, mapDataTypeImpl, ht, hne, hl']

/-- Claim C9, witness: the amended claim applied at lengths 5 and -2. -/
theorem claim_C9_witness :
    (0 : Int) < 5 ∧ mapDataType "nchar" (some 5) none none = "CHAR(2)" ∧
    (-2 : Int) ≤ 0 ∧ mapDataType "nchar" (some (-2)) none none = "CHAR(1)" :=
  ⟨by decide,
   (claim_C9_amended.2.1 5 (by decide)).trans (by decide),
   by decide,
   claim_C9_amended.2.2.1 (-2) (by decide)⟩

/-- Claim C7, counterexample: the separator of the composed table identifier
is the underscore, which can occur in source identifiers, so the composition
is not injective: the distinct pairs (a_b, c) and (a, b_c) compose to the
same identifier. -/
theorem claim_C7_counterexample :
    composeTableIdentifier "a_b" "c" = composeTableIdentifier "a" "b_c" ∧
    (("a_b", "c") : String × String) ≠ ("a", "b_c") := by
  exact ⟨by decide, by decide⟩

/-- Claim C7, amended: the separator is the underscore, which may itself
occur in source identifiers; the composition is injective only on pairs whose
schema names are underscore-free. -/
theorem claim_C7_amended (s1 t1 s2 t2 : String)
    (h1 : '_' ∉ s1.data) (h2 : '_' ∉ s2.data)
    (he : composeTableIdentifier s1 t1 = composeTableIdentifier s2 t2) :
    s1 = s2 ∧ t1 = t2 := by
  have hd : s1.data ++ '_' :: t1.data = s2.data ++ '_' :: t2.data := by
    have := congrArg String.data he
    simpa [composeTableIdentifier, String.data_append] using this
  obtain ⟨ha, hb⟩ := underscore_split h1 h2 hd
  exact ⟨String.ext ha, String.ext hb⟩

/-- Claim C7, witness: the amended claim applied at underscore-free schemas. -/
theorem claim_C7_witness :
    '_' ∉ "dbo".data ∧ ("dbo" : String) = "dbo" ∧ ("Orders" : String) = "Orders" :=
  ⟨by decide,
   (claim_C7_amended "dbo" "Orders" "dbo" "Orders" (by decide) (by decide) rfl).1,
   (claim_C7_amended "dbo" "Orders" "dbo" "Orders" (by decide) (by decide) rfl).2⟩

/-! ## Verified behaviour of the depth-first traversal -/

theorem VisitOut.rfl_self (G : String → List String) (names : List String)
    (s : DfsState) : VisitOut G names s s :=
  ⟨rfl, rfl, ⟨[], by simp, by simp, List.nodup_nil, by simp⟩, fun _ _ _ _ h => h⟩

theorem VisitOut.trans {G : String → List String} {names : List String}
    {s1 s2 s3 : DfsState} (h12 : VisitOut G names s1 s2)
    (h23 : VisitOut G names s2 s3) : VisitOut G names s1 s3 := by
  obtain ⟨hok, hvis, ⟨D1, hs1, hv1, hnd1, hp1⟩, hgp1⟩ := h12
  obtain ⟨hok2, hvis2, ⟨D2, hs2, hv2, hnd2, hp2⟩, hgp2⟩ := h23
  refine ⟨hok2.trans hok, hvis2.trans hvis,
    ⟨D1 ++ D2, by rw [hs2, hs1, List.append_assoc],
      by rw [hv2, hv1, List.append_assoc], ?_, ?_⟩,
    fun u v he hr h => hgp2 u v he hr (hgp1 u v he hr h)⟩
  · refine List.Nodup.append hnd1 hnd2 (fun x hx1 hx2 => ?_)
    have hnot := (hp2 x hx2).2.1
    rw [hv1] at hnot
    exact hnot (List.mem_append_right _ hx1)
  · intro x hx
    rcases List.mem_append.mp hx with hx1 | hx2
    · exact hp1 x hx1
    · have h2 := hp2 x hx2
      refine ⟨h2.1, fun hm => h2.2.1 (by rw [hv1]; exact List.mem_append_left _ hm), ?_⟩
      have := h2.2.2
      rw [hvis] at this
      exact this

theorem visitF_succ_visited (G : String → List String) (n : Nat) (t : String)
    (s : DfsState) (h : t ∈ s.visited) : visitF G (n + 1) t s = s := by
  simp [visitF, h]

theorem visitF_succ_visiting (G : String → List String) (n : Nat) (t : String)
    (s : DfsState) (h1 : t ∉ s.visited) (h2 : t ∈ s.visiting) :
    visitF G (n + 1) t s = { s with warnings := s.warnings + 1 } := by
  simp [visitF, h1, h2]

theorem visitF_succ_go (G : String → List String) (n : Nat) (t : String)
    (s : DfsState) (h1 : t ∉ s.visited) (h2 : t ∉ s.visiting) :
    visitF G (n + 1) t s =
      (fun s2 => { s2 with
          visiting := s2.visiting.erase t
          visited := s2.visited ++ [t]
          sorted := s2.sorted ++ [t] })
        ((G t).foldl (fun acc d => visitF G n d acc)
          { s with visiting := s.visiting ++ [t] }) := by
  simp [visitF, h1, h2]

theorem visitF_master (G : String → List String) (names : List String)
    (hG : ∀ x y, y ∈ G x → y ∈ names) :
    ∀ (f : Nat) (t : String) (s : DfsState), VisitInv G names t s f →
      VisitOut G names s (visitF G f t s) ∧
      (t ∈ (visitF G f t s).visited ∨ t ∈ s.visiting) := by
  intro f
  induction f with
  | zero =>
    intro t s hinv
    obtain ⟨ht, hnd, hsub, hdisj, hvs, hreach, hfuel⟩ := hinv
    exfalso
    have hsp : s.visiting.Subperm names.dedup :=
      List.Nodup.subperm hnd (fun x hx => List.mem_dedup.mpr (hsub x hx))
    have := hsp.length_le
    omega
  | succ n ih =>
    intro t s hinv
    obtain ⟨ht, hnd, hsub, hdisj, hvs, hreach, hfuel⟩ := hinv
    by_cases h1 : t ∈ s.visited
    · rw [visitF_succ_visited G n t s h1]
      exact ⟨VisitOut.rfl_self G names s, Or.inl h1⟩
    by_cases h2 : t ∈ s.visiting
    · rw [visitF_succ_visiting G n t s h1 h2]
      refine ⟨⟨rfl, rfl, ⟨[], by simp, by simp, List.nodup_nil, by simp⟩,
        fun u v _ _ h => h⟩, Or.inr h2⟩
    -- main branch
    rw [visitF_succ_go G n t s h1 h2]
    set s1 : DfsState := { s with visiting := s.visiting ++ [t] } with hs1def
    have fold_out : ∀ (l : List String), (∀ d ∈ l, d ∈ G t) →
        ∀ s0 : DfsState, s0.visiting = s.visiting ++ [t] →
        s0.visited = s0.sorted →
        (∀ x ∈ s0.visiting, x ∉ s0.visited) →
        VisitOut G names s0 (l.foldl (fun acc d => visitF G n d acc) s0) ∧
        (∀ d ∈ l, d ∈ (l.foldl (fun acc d => visitF G n d acc) s0).visited ∨
          d ∈ s0.visiting) := by
      intro l
      induction l with
      | nil =>
        intro _ s0 _ _ _
        exact ⟨VisitOut.rfl_self G names s0, by simp⟩
      | cons d rest ihl =>
        intro hsubl s0 hvis0 hvs0 hdisj0
        have hndt : (s.visiting ++ [t]).Nodup := by
          rw [List.nodup_append]
          exact ⟨hnd, List.nodup_singleton t, by simpa using h2⟩
        have hinv0 : VisitInv G names d s0 n := by
          refine ⟨hG t d (hsubl d (List.mem_cons_self d rest)), ?_, ?_, hdisj0, hvs0, ?_, ?_⟩
          · rw [hvis0]; exact hndt
          · intro x hx
            rw [hvis0] at hx
            rcases List.mem_append.mp hx with hx | hx
            · exact hsub x hx
            · rw [List.mem_singleton.mp hx]; exact ht
          · intro x hx
            rw [hvis0] at hx
            have hedge : d ∈ G t := hsubl d (List.mem_cons_self d rest)
            rcases List.mem_append.mp hx with hx | hx
            · exact Relation.ReflTransGen.tail (hreach x hx) hedge
            · rw [List.mem_singleton.mp hx]
              exact Relation.ReflTransGen.single hedge
          · have hlen : s0.visiting.length = s.visiting.length + 1 := by
              rw [hvis0, List.length_append, List.length_singleton]
            omega
        obtain ⟨hout, hprog⟩ := ih d s0 hinv0
        have hok := hout.1
        have hvisEq := hout.2.1
        obtain ⟨D, hsD, hvD, hndD, hpD⟩ := hout.2.2.1
        have hgp := hout.2.2.2
        have hvis0' : (visitF G n d s0).visiting = s.visiting ++ [t] := by
          rw [hvisEq, hvis0]
        have hvs0' : (visitF G n d s0).visited = (visitF G n d s0).sorted := by
          rw [hvD, hsD, hvs0]
        have hdisj0' : ∀ x ∈ (visitF G n d s0).visiting, x ∉ (visitF G n d s0).visited := by
          intro x hx
          rw [hvD]
          rw [hvisEq] at hx
          intro hmem
          rcases List.mem_append.mp hmem with hm | hm
          · exact hdisj0 x hx hm
          · exact (hpD x hm).2.2 hx
        have hrest := ihl (fun d' hd' => hsubl d' (List.mem_cons_of_mem d hd'))
          (visitF G n d s0) hvis0' hvs0' hdisj0'
        rw [List.foldl_cons]
        refine ⟨VisitOut.trans hout hrest.1, ?_⟩
        intro d' hd'
        obtain ⟨hokR, hvisR, ⟨DR, hsR, hvR, hndR, hpR⟩, hgpR⟩ := hrest.1
        rcases List.mem_cons.mp hd' with rfl | hd'
        · rcases hprog with hin | hin
          · left
            rw [hvR]
            exact List.mem_append_left _ hin
          · right
            exact hin
        · rcases hrest.2 d' hd' with hin | hin
          · left; exact hin
          · right
            rw [hvisEq] at hin
            exact hin
    have hdisj1 : ∀ x ∈ s1.visiting, x ∉ s1.visited := by
      intro x hx
      show x ∉ s.visited
      rcases List.mem_append.mp hx with hx | hx
      · exact hdisj x hx
      · rw [List.mem_singleton.mp hx]; exact h1
    obtain ⟨⟨hokF, hvisF, ⟨DF, hsF, hvF, hndF, hpF⟩, hgpF⟩, progF⟩ :=
      fold_out (G t) (fun d hd => hd) s1 rfl hvs hdisj1
    set s2 := (G t).foldl (fun acc d => visitF G n d acc) s1 with hs2def
    have htDF : t ∉ DF := by
      intro hmem
      exact (hpF t hmem).2.2 (List.mem_append_right _ (List.mem_singleton_self t))
    have hvis2 : s2.visiting.erase t = s.visiting := by
      rw [hvisF]
      show (s.visiting ++ [t]).erase t = s.visiting
      rw [List.erase_append_right _ h2, List.erase_cons_head]
      simp
    have hvisited2 : s2.visited = s.visited ++ DF := hvF
    have hsorted2 : s2.sorted = s.sorted ++ DF := hsF
    have hvs2 : s2.visited = s2.sorted := by rw [hvF, hsF, hvs]
    constructor
    · refine ⟨hokF, ?_, ⟨DF ++ [t], ?_, ?_, ?_, ?_⟩, ?_⟩
      · show s2.visiting.erase t = s.visiting
        exact hvis2
      · show s2.sorted ++ [t] = s.sorted ++ (DF ++ [t])
        rw [hsorted2, List.append_assoc]
      · show s2.visited ++ [t] = s.visited ++ (DF ++ [t])
        rw [hvisited2, List.append_assoc]
      · rw [List.nodup_append]
        exact ⟨hndF, List.nodup_singleton t, by simpa using htDF⟩
      · intro x hx
        rcases List.mem_append.mp hx with hx | hx
        · have hp := hpF x hx
          refine ⟨hp.1, hp.2.1, fun hm => hp.2.2 (List.mem_append_left _ hm)⟩
        · rw [List.mem_singleton.mp hx]
          exact ⟨ht, h1, h2⟩
      · intro u v he hr hgood
        intro hu
        show [v, u].Sublist (s2.sorted ++ [t])
        have hu' : u ∈ s2.visited ++ [t] := hu
        by_cases htu : t = u
        · subst htu
          rcases progF v he with hin | hin
          · have hvmem : v ∈ s2.sorted := by rw [← hvs2]; exact hin
            have : [v].Sublist s2.sorted := List.singleton_sublist.mpr hvmem
            exact List.Sublist.append this (List.Sublist.refl [t])
          · exfalso
            rcases List.mem_append.mp hin with hin | hin
            · exact hr (hreach v hin)
            · rw [List.mem_singleton.mp hin] at hr
              exact hr Relation.ReflTransGen.refl
        · have hu2 : u ∈ s2.visited := by
            rcases List.mem_append.mp hu' with h | h
            · exact h
            · exact absurd (List.mem_singleton.mp h).symm htu
          have hgood1 : GoodPair u v s1 := hgood
          have := hgpF u v he hr hgood1 hu2
          exact List.Sublist.trans this (List.sublist_append_left _ _)
    · left
      show t ∈ s2.visited ++ [t]
      exact List.mem_append_right _ (List.mem_singleton_self t)

/-! ## The dependency map and the resolver claims -/

theorem foldVisit_top (G : String → List String) (names : List String)
    (hG : ∀ x y, y ∈ G x → y ∈ names) (n : Nat) :
    ∀ (l : List String) (s0 : DfsState),
      (∀ d ∈ l, d ∈ names) →
      s0.visiting.Nodup → (∀ x ∈ s0.visiting, x ∈ names) →
      (∀ x ∈ s0.visiting, x ∉ s0.visited) → s0.visited = s0.sorted →
      (∀ d ∈ l, ∀ x ∈ s0.visiting, Reaches G x d) →
      names.dedup.length + 1 ≤ n + s0.visiting.length →
      VisitOut G names s0 (l.foldl (fun acc d => visitF G n d acc) s0) ∧
      (∀ d ∈ l, d ∈ (l.foldl (fun acc d => visitF G n d acc) s0).visited ∨
        d ∈ s0.visiting) := by
  intro l
  induction l with
  | nil =>
    intro s0 _ _ _ _ _ _ _
    exact ⟨VisitOut.rfl_self G names s0, by simp⟩
  | cons d rest ihl =>
    intro s0 hl hnd0 hsub0 hdisj0 hvs0 hreach0 hfuel0
    have hinv0 : VisitInv G names d s0 n :=
      ⟨hl d (List.mem_cons_self d rest), hnd0, hsub0, hdisj0, hvs0,
        hreach0 d (List.mem_cons_self d rest), hfuel0⟩
    obtain ⟨hout, hprog⟩ := visitF_master G names hG n d s0 hinv0
    have hok := hout.1
    have hvisEq := hout.2.1
    obtain ⟨D, hsD, hvD, hndD, hpD⟩ := hout.2.2.1
    have hrest := ihl (visitF G n d s0)
      (fun d' hd' => hl d' (List.mem_cons_of_mem d hd'))
      (by rw [hvisEq]; exact hnd0)
      (by rw [hvisEq]; exact hsub0)
      (by
        intro x hx
        rw [hvisEq] at hx
        rw [hvD]
        intro hmem
        rcases List.mem_append.mp hmem with hm | hm
        · exact hdisj0 x hx hm
        · exact (hpD x hm).2.2 hx)
      (by rw [hvD, hsD, hvs0])
      (by
        intro d' hd' x hx
        rw [hvisEq] at hx
        exact hreach0 d' (List.mem_cons_of_mem d hd') x hx)
      (by rw [hvisEq]; exact hfuel0)
    rw [List.foldl_cons]
    refine ⟨VisitOut.trans hout hrest.1, ?_⟩
    intro d' hd'
    have hvR := hrest.1.2.2.1
    obtain ⟨DR, hsR, hvRR, hndR, hpR⟩ := hvR
    rcases List.mem_cons.mp hd' with rfl | hd'
    · rcases hprog with hin | hin
      · left
        rw [hvRR]
        exact List.mem_append_left _ hin
      · right
        exact hin
    · rcases hrest.2 d' hd' with hin | hin
      · left; exact hin
      · right
        rw [hvisEq] at hin
        exact hin

theorem alookup_aset_self (m : List (String × List String)) (k : String)
    (v : List String) : alookup (aset m k v) k = some v := by
  induction m with
  | nil => simp [aset, alookup]
  | cons p rest ih =>
    obtain ⟨k', w⟩ := p
    by_cases h : k' = k
    · subst h; simp [aset, alookup]
    · simp [aset, alookup, h, ih]

theorem alookup_aset_ne (m : List (String × List String)) (k k' : String)
    (v : List String) (h : k' ≠ k) : alookup (aset m k v) k' = alookup m k' := by
  induction m with
  | nil => simp [aset, alookup, Ne.symm h]
  | cons p rest ih =>
    obtain ⟨k'', w⟩ := p
    by_cases h2 : k'' = k
    · subst h2
      simp [aset, alookup, Ne.symm h]
    · simp [aset, alookup, h2, ih]

theorem alookup_aupdate_self (m : List (String × List String)) (k : String)
    (f : List String → List String) :
    alookup (aupdate m k f) k = (alookup m k).map f := by
  induction m with
  | nil => simp [aupdate, alookup]
  | cons p rest ih =>
    obtain ⟨k', w⟩ := p
    by_cases h : k' = k
    · subst h; simp [aupdate, alookup]
    · simp [aupdate, alookup, h, ih]

theorem alookup_aupdate_ne (m : List (String × List String)) (k k' : String)
    (f : List String → List String) (h : k' ≠ k) :
    alookup (aupdate m k f) k' = alookup m k' := by
  induction m with
  | nil => simp [aupdate, alookup]
  | cons p rest ih =>
    obtain ⟨k'', w⟩ := p
    by_cases h2 : k'' = k
    · subst h2
      simp [aupdate, alookup, Ne.symm h]
    · simp [aupdate, alookup, h2, ih]

theorem mem_addTarget_self (l : List String) (t : String) : t ∈ addTarget l t := by
  unfold addTarget
  split
  · assumption
  · exact List.mem_append_right _ (List.mem_singleton_self t)

theorem mem_addTarget_mono (l : List String) (t b : String) (h : b ∈ l) :
    b ∈ addTarget l t := by
  unfold addTarget
  split
  · exact h
  · exact List.mem_append_left _ h

theorem mem_addTarget (l : List String) (t b : String) (h : b ∈ addTarget l t) :
    b ∈ l ∨ b = t := by
  unfold addTarget at h
  split at h
  · exact Or.inl h
  · rcases List.mem_append.mp h with h | h
    · exact Or.inl h
    · exact Or.inr (List.mem_singleton.mp h)

theorem alookup_initMap_isSome :
    ∀ (tables : List TableRef) (m0 : List (String × List String)) (k : String),
      (k ∈ tables.map tableKey ∨ (alookup m0 k).isSome) →
      (alookup (tables.foldl (fun m t => aset m (tableKey t) []) m0) k).isSome := by
  intro tables
  induction tables with
  | nil =>
    intro m0 k h
    rcases h with h | h
    · simp at h
    · simpa using h
  | cons t rest ih =>
    intro m0 k h
    rw [List.foldl_cons]
    apply ih
    by_cases hk : k = tableKey t
    · subst hk
      right
      rw [alookup_aset_self]
      rfl
    · rcases h with h | h
      · simp only [List.map_cons, List.mem_cons] at h
        rcases h with h | h
        · exact absurd h hk
        · exact Or.inl h
      · right
        rw [alookup_aset_ne _ _ _ _ hk]
        exact h

theorem alookup_initMap_values :
    ∀ (tables : List TableRef) (m0 : List (String × List String)),
      (∀ a v, alookup m0 a = some v → v = []) →
      ∀ a v, alookup (tables.foldl (fun m t => aset m (tableKey t) []) m0) a = some v →
        v = [] := by
  intro tables
  induction tables with
  | nil => intro m0 h a v hv; exact h a v hv
  | cons t rest ih =>
    intro m0 h a v hv
    rw [List.foldl_cons] at hv
    refine ih (aset m0 (tableKey t) []) ?_ a v hv
    intro a' v' hv'
    by_cases hk : a' = tableKey t
    · subst hk
      rw [alookup_aset_self] at hv'
      exact (Option.some.injEq _ _ ▸ hv').symm ▸ rfl
    · rw [alookup_aset_ne _ _ _ _ hk] at hv'
      exact h a' v' hv'

theorem fkStep_isSome (names : List String) (m : List (String × List String))
    (fk : ForeignKey) (k : String) (h : (alookup m k).isSome) :
    (alookup (fkStep names m fk) k).isSome := by
  unfold fkStep
  split
  · by_cases hk : k = fkSourceKey fk
    · subst hk
      rw [alookup_aupdate_self]
      cases hm : alookup m (fkSourceKey fk)
      · rw [hm] at h; simp at h
      · simp
    · rw [alookup_aupdate_ne _ _ _ _ hk]
      exact h
  · exact h

theorem fkfold_isSome (names : List String) :
    ∀ (fks : List ForeignKey) (m0 : List (String × List String)) (k : String),
      (alookup m0 k).isSome →
      (alookup (fks.foldl (fkStep names) m0) k).isSome := by
  intro fks
  induction fks with
  | nil => intro m0 k h; simpa using h
  | cons fk rest ih =>
    intro m0 k h
    rw [List.foldl_cons]
    exact ih _ k (fkStep_isSome names m0 fk k h)

theorem fkStep_mono (names : List String) (m : List (String × List String))
    (fk : ForeignKey) (a b : String) (h : b ∈ (alookup m a).getD []) :
    b ∈ (alookup (fkStep names m fk) a).getD [] := by
  unfold fkStep
  split
  · by_cases hk : a = fkSourceKey fk
    · subst hk
      rw [alookup_aupdate_self]
      cases hm : alookup m (fkSourceKey fk)
      · rw [hm] at h; simp at h
      · rw [hm] at h
        simpa using mem_addTarget_mono _ _ _ (by simpa using h)
    · rw [alookup_aupdate_ne _ _ _ _ hk]
      exact h
  · exact h

theorem fkfold_mono (names : List String) :
    ∀ (fks : List ForeignKey) (m0 : List (String × List String)) (a b : String),
      b ∈ (alookup m0 a).getD [] →
      b ∈ (alookup (fks.foldl (fkStep names) m0) a).getD [] := by
  intro fks
  induction fks with
  | nil => intro m0 a b h; simpa using h
  | cons fk rest ih =>
    intro m0 a b h
    rw [List.foldl_cons]
    exact ih _ a b (fkStep_mono names m0 fk a b h)

theorem fkfold_inv (names : List String) :
    ∀ (fks : List ForeignKey) (m0 : List (String × List String)),
      (∀ a b, b ∈ (alookup m0 a).getD [] → b ∈ names ∧ a ≠ b) →
      ∀ a b, b ∈ (alookup (fks.foldl (fkStep names) m0) a).getD [] →
        b ∈ names ∧ a ≠ b := by
  intro fks
  induction fks with
  | nil => intro m0 h a b hb; exact h a b (by simpa using hb)
  | cons fk rest ih =>
    intro m0 h a b hb
    rw [List.foldl_cons] at hb
    refine ih (fkStep names m0 fk) ?_ a b hb
    intro a' b' hb'
    unfold fkStep at hb'
    by_cases hguard : fkSourceKey fk ∈ names ∧ fkTargetKey fk ∈ names ∧
        fkSourceKey fk ≠ fkTargetKey fk
    · rw [if_pos hguard] at hb'
      by_cases hk : a' = fkSourceKey fk
      · subst hk
        rw [alookup_aupdate_self] at hb'
        cases hm : alookup m0 (fkSourceKey fk)
        · rw [hm] at hb'; simp at hb'
        · rw [hm] at hb'
          rcases mem_addTarget _ _ _ (by simpa using hb') with hmem | rfl
          · exact h _ b' (by simp [hm, hmem])
          · exact ⟨hguard.2.1, hguard.2.2⟩
      · rw [alookup_aupdate_ne _ _ _ _ hk] at hb'
        exact h a' b' hb'
    · rw [if_neg hguard] at hb'
      exact h a' b' hb'

theorem fkfold_edge (names : List String) :
    ∀ (fks : List ForeignKey) (m0 : List (String × List String)) (fk : ForeignKey),
      fk ∈ fks →
      (fkSourceKey fk ∈ names ∧ fkTargetKey fk ∈ names ∧
        fkSourceKey fk ≠ fkTargetKey fk) →
      (alookup m0 (fkSourceKey fk)).isSome →
      fkTargetKey fk ∈ (alookup (fks.foldl (fkStep names) m0) (fkSourceKey fk)).getD [] := by
  intro fks
  induction fks with
  | nil => intro m0 fk hfk; simp at hfk
  | cons fk' rest ih =>
    intro m0 fk hfk hguard hsome
    rw [List.foldl_cons]
    rcases List.mem_cons.mp hfk with rfl | hfk
    · apply fkfold_mono
      unfold fkStep
      rw [if_pos hguard, alookup_aupdate_self]
      cases hm : alookup m0 (fkSourceKey fk)
      · rw [hm] at hsome; simp at hsome
      · simpa using mem_addTarget_self _ _
    · exact ih (fkStep names m0 fk') fk hfk hguard
        (fkStep_isSome names m0 fk' _ hsome)

theorem depsOf_mem {tables : List TableRef} {fks : List ForeignKey} {a b : String}
    (h : b ∈ depsOf tables fks a) : b ∈ tables.map tableKey ∧ a ≠ b := by
  unfold depsOf buildDeps at h
  refine fkfold_inv (tables.map tableKey) fks _ ?_ a b h
  intro a' b' hb'
  cases hm : alookup (tables.foldl (fun m t => aset m (tableKey t) []) []) a'
  · rw [hm] at hb'; simp at hb'
  · have := alookup_initMap_values tables [] (by intro a v hv; simp [alookup] at hv) a' _ hm
    rw [hm, this] at hb'
    simp at hb'

theorem depsOf_edge {tables : List TableRef} {fks : List ForeignKey}
    {fk : ForeignKey} (hfk : fk ∈ fks)
    (hs : fkSourceKey fk ∈ tables.map tableKey)
    (ht : fkTargetKey fk ∈ tables.map tableKey)
    (hne : fkSourceKey fk ≠ fkTargetKey fk) :
    fkTargetKey fk ∈ depsOf tables fks (fkSourceKey fk) := by
  unfold depsOf buildDeps
  exact fkfold_edge (tables.map tableKey) fks _ fk hfk ⟨hs, ht, hne⟩
    (alookup_initMap_isSome tables [] _ (Or.inl hs))

theorem depsOf_sub (tables : List TableRef) (fks : List ForeignKey) :
    ∀ x y, y ∈ depsOf tables fks x → y ∈ tables.map tableKey :=
  fun _ _ h => (depsOf_mem h).1

theorem runSort_master (tables : List TableRef) (fks : List ForeignKey) :
    VisitOut (depsOf tables fks) (tables.map tableKey) dfsStart
      (runSort tables fks) ∧
    ∀ k ∈ tables.map tableKey, k ∈ (runSort tables fks).visited := by
  have hfold := foldVisit_top (depsOf tables fks) (tables.map tableKey)
    (depsOf_sub tables fks) ((tables.map tableKey).length + 1)
    (tables.map tableKey) dfsStart
    (fun d hd => hd)
    (by simp [dfsStart])
    (by simp [dfsStart])
    (by simp [dfsStart])
    (by simp [dfsStart])
    (by simp [dfsStart])
    (by
      have h1 := (List.dedup_sublist (tables.map tableKey)).length_le
      have h2 : (tables.map tableKey).length = tables.length := List.length_map _ _
      simp [dfsStart]
      omega)
  have hrw : runSort tables fks =
      (tables.map tableKey).foldl
        (fun acc d => visitF (depsOf tables fks) ((tables.map tableKey).length + 1) d acc)
        dfsStart := by
    unfold runSort
    rw [List.foldl_map]
  rw [hrw]
  exact ⟨hfold.1, fun k hk => by
    rcases hfold.2 k hk with h | h
    · exact h
    · simp [dfsStart] at h⟩

theorem runSort_ok (tables : List TableRef) (fks : List ForeignKey) :
    (runSort tables fks).ok = true :=
  (runSort_master tables fks).1.1

theorem runSort_sorted_eq_visited (tables : List TableRef) (fks : List ForeignKey) :
    (runSort tables fks).visited = (runSort tables fks).sorted := by
  obtain ⟨D, hs, hv, -, -⟩ := (runSort_master tables fks).1.2.2.1
  rw [hs, hv]
  rfl

theorem runSort_sorted_nodup (tables : List TableRef) (fks : List ForeignKey) :
    (runSort tables fks).sorted.Nodup := by
  obtain ⟨D, hs, -, hnd, -⟩ := (runSort_master tables fks).1.2.2.1
  rw [hs]
  simpa [dfsStart] using hnd

theorem runSort_mem_sorted (tables : List TableRef) (fks : List ForeignKey) (k : String) :
    k ∈ (runSort tables fks).sorted ↔ k ∈ tables.map tableKey := by
  constructor
  · intro h
    obtain ⟨D, hs, -, -, hp⟩ := (runSort_master tables fks).1.2.2.1
    rw [hs] at h
    simp only [dfsStart, List.nil_append] at h
    exact (hp k h).1
  · intro h
    have := (runSort_master tables fks).2 k h
    rw [runSort_sorted_eq_visited] at this
    exact this

/-- Claim C1: for every table set and foreign-key list, and every foreign-key
edge A→B with both tables in the migrated set, distinct keys, and no directed
path from B back to A (so the edge lies on no directed cycle of the
dependency graph), the ordering produced by `sortTablesByDependencies` places
B strictly before A, both at the level of the internal key list and of the
returned table objects. -/
theorem claim_C1_noncyclic_edge_order (tables : List TableRef) (fks : List ForeignKey)
    (A B : TableRef) (fk : ForeignKey)
    (hA : A ∈ tables) (hB : B ∈ tables) (hfk : fk ∈ fks)
    (hsrc : fkSourceKey fk = tableKey A) (htgt : fkTargetKey fk = tableKey B)
    (hne : tableKey A ≠ tableKey B)
    (hnr : ¬ Reaches (depsOf tables fks) (tableKey B) (tableKey A)) :
    [tableKey B, tableKey A].Sublist (runSort tables fks).sorted ∧
    [reconstruct (tableKey B), reconstruct (tableKey A)].Sublist
      (sortTablesByDependencies tables fks) := by
  have hedge : tableKey B ∈ depsOf tables fks (tableKey A) := by
    rw [← hsrc, ← htgt]
    exact depsOf_edge hfk
      (hsrc ▸ List.mem_map_of_mem tableKey hA)
      (htgt ▸ List.mem_map_of_mem tableKey hB)
      (by rw [hsrc, htgt]; exact hne)
  obtain ⟨hout, hcomp⟩ := runSort_master tables fks
  have hgp := hout.2.2.2 (tableKey A) (tableKey B) hedge hnr
    (fun hu => absurd hu (by simp [dfsStart]))
  have hu : tableKey A ∈ (runSort tables fks).visited :=
    hcomp _ (List.mem_map_of_mem tableKey hA)
  have h1 : [tableKey B, tableKey A].Sublist (runSort tables fks).sorted := hgp hu
  refine ⟨h1, ?_⟩
  have h2 := h1.map reconstruct
  simpa [sortTablesByDependencies] using h2

example : (runSort cycleTables cycleFks).warnings = 1 := by decide
example : sortTablesByDependencies cycleTables cycleFks = [⟨"s", "b"⟩, ⟨"s", "a"⟩] := by decide
example : (sortTablesByDependencies [⟨"dbo", "x.y"⟩] []).count ⟨"dbo", "x.y"⟩ = 0 := by decide
example : dataLoadTableOrder chainTables chainFks = ["s_c", "s_b", "s_a"] := by decide
example : List.indexOf "s_a" (dataLoadTableOrder chainTables chainFks) >
    List.indexOf "s_b" (dataLoadTableOrder chainTables chainFks) := by decide
example : depsOf cycleTables pairFks "s.b" = [] := by decide

theorem count_map_congr (f : String → TableRef) (l : List String) (p : TableRef)
    (kp : String) (h : ∀ k ∈ l, (f k = p ↔ k = kp)) :
    (l.map f).count p = l.count kp := by
  induction l with
  | nil => rfl
  | cons a rest ih =>
    have hrest := ih (fun k hk => h k (List.mem_cons_of_mem a hk))
    by_cases hc : a = kp
    · subst hc
      have hfa : f a = p := (h a (List.mem_cons_self a rest)).mpr rfl
      simp [List.count_cons, hrest, hfa]
    · have hfa : f a ≠ p := fun he => hc ((h a (List.mem_cons_self a rest)).mp he)
      simp [List.count_cons, hrest, hfa, hc]

/-- Claim C2, amended: for every input the depth-first traversal terminates
within the fuel bound (the `ok` flag stays true); when no schema or table
name contains a dot, the output contains each input table exactly once; and
on the 2-cycle A→B→A both tables are emitted once, in order [B, A], with
exactly one warning recorded. -/
theorem claim_C2_amended :
    (∀ (tables : List TableRef) (fks : List ForeignKey),
      (runSort tables fks).ok = true) ∧
    (∀ (tables : List TableRef) (fks : List ForeignKey),
      (∀ t ∈ tables, '.' ∉ t.schema_name.data ∧ '.' ∉ t.table_name.data) →
      ∀ t ∈ tables, (sortTablesByDependencies tables fks).count t = 1) ∧
    (runSort cycleTables cycleFks).warnings = 1 ∧
    sortTablesByDependencies cycleTables cycleFks = [⟨"s", "b"⟩, ⟨"s", "a"⟩] := by
  refine ⟨runSort_ok, ?_, by decide, by decide⟩
  intro tables fks hdot t ht
  have hkey : tableKey t ∈ (runSort tables fks).sorted :=
    (runSort_mem_sorted tables fks _).mpr (List.mem_map_of_mem tableKey ht)
  have hcnt : (runSort tables fks).sorted.count (tableKey t) = 1 :=
    List.count_eq_one_of_mem (runSort_sorted_nodup tables fks) hkey
  have hcong : ∀ k ∈ (runSort tables fks).sorted,
      (reconstruct k = t ↔ k = tableKey t) := by
    intro k hk
    have hk' : k ∈ tables.map tableKey := (runSort_mem_sorted tables fks k).mp hk
    obtain ⟨q, hq, rfl⟩ := List.mem_map.mp hk'
    have hrq : reconstruct (tableKey q) = q :=
      reconstruct_tableKey q (hdot q hq).1 (hdot q hq).2
    constructor
    · intro he
      rw [hrq] at he
      rw [he]
    · intro he
      rw [he, reconstruct_tableKey t (hdot t ht).1 (hdot t ht).2]
  calc (sortTablesByDependencies tables fks).count t
      = (runSort tables fks).sorted.count (tableKey t) :=
        count_map_congr reconstruct _ t (tableKey t) hcong
    _ = 1 := hcnt

/-- Claim C10: when no schema or table name contains a dot, the
reconstruction from the internal schema-dot-table keys is a faithful
round-trip (the output objects are exactly the input tables); a table name
containing a dot is truncated at its first dot in the output. -/
theorem claim_C10_roundtrip :
    (∀ (tables : List TableRef) (fks : List ForeignKey),
      (∀ t ∈ tables, '.' ∉ t.schema_name.data ∧ '.' ∉ t.table_name.data) →
      ∀ p : TableRef, p ∈ sortTablesByDependencies tables fks ↔ p ∈ tables) ∧
    (∀ (s t : String) (fks : List ForeignKey), '.' ∉ s.data →
      sortTablesByDependencies [⟨s, t⟩] fks = [⟨s, truncDot t⟩]) := by
  constructor
  · intro tables fks hdot p
    constructor
    · intro hp
      obtain ⟨k, hk, rfl⟩ := List.mem_map.mp hp
      have hk' := (runSort_mem_sorted tables fks k).mp hk
      obtain ⟨q, hq, rfl⟩ := List.mem_map.mp hk'
      rw [reconstruct_tableKey q (hdot q hq).1 (hdot q hq).2]
      exact hq
    · intro hp
      exact List.mem_map.mpr ⟨tableKey p,
        (runSort_mem_sorted tables fks _).mpr (List.mem_map_of_mem tableKey hp),
        reconstruct_tableKey p (hdot p hp).1 (hdot p hp).2⟩
  · intro s t fks hs
    have hkey : depsOf [⟨s, t⟩] fks (tableKey ⟨s, t⟩) = [] := by
      cases hd : depsOf [⟨s, t⟩] fks (tableKey ⟨s, t⟩) with
      | nil => rfl
      | cons b rest =>
        have hb : b ∈ depsOf [⟨s, t⟩] fks (tableKey ⟨s, t⟩) := by
          rw [hd]; exact List.mem_cons_self b rest
        obtain ⟨hmem, hne⟩ := depsOf_mem hb
        simp only [List.map_cons, List.map_nil, List.mem_singleton] at hmem
        exact absurd hmem.symm hne
    have hrun : runSort [⟨s, t⟩] fks =
        ⟨true, [tableKey ⟨s, t⟩], [tableKey ⟨s, t⟩], [], 0⟩ := by
      unfold runSort
      simp only [List.map_cons, List.map_nil, List.length_cons, List.length_nil,
        List.foldl_cons, List.foldl_nil]
      rw [visitF_succ_go _ _ _ _ (by simp [dfsStart]) (by simp [dfsStart])]
      rw [hkey]
      simp [dfsStart, List.erase_cons_head]
    rw [sortTablesByDependencies, hrun]
    simp only [List.map_cons, List.map_nil]
    rw [show tableKey ⟨s, t⟩ = s ++ "." ++ t from rfl, reconstruct_key s t hs]

/-- Claim C1, witness: the single edge A→B on tables [A, B] is on no cycle,
and the resolver emits B strictly before A. -/
theorem claim_C1_witness :
    ¬ Reaches (depsOf cycleTables pairFks) (tableKey ⟨"s", "b"⟩) (tableKey ⟨"s", "a"⟩) ∧
    [tableKey ⟨"s", "b"⟩, tableKey ⟨"s", "a"⟩].Sublist
      (runSort cycleTables pairFks).sorted := by
  have hGb : depsOf cycleTables pairFks (tableKey ⟨"s", "b"⟩) = [] := by decide
  have hnr : ¬ Reaches (depsOf cycleTables pairFks) (tableKey ⟨"s", "b"⟩)
      (tableKey ⟨"s", "a"⟩) := by
    intro h
    rcases Relation.ReflTransGen.cases_head h with heq | ⟨c, hc, -⟩
    · exact absurd heq (by decide)
    · rw [hGb] at hc
      exact absurd hc (List.not_mem_nil c)
  exact ⟨hnr,
    (claim_C1_noncyclic_edge_order cycleTables pairFks ⟨"s", "a"⟩ ⟨"s", "b"⟩
      (simpleFk "s" "a" "s" "b") (by decide) (by decide) (by decide)
      (by decide) (by decide) (by decide) hnr).1⟩

/-- Claim C3, counterexample: with tables A, B, C and edges A→B, B→C the
data-load (resolver) order is [s_c, s_b, s_a], while phase 2 issues its ALTER
statements in foreign-key list order [s_a, s_b]: the table of the first ALTER
comes strictly after the table of the second in the resolver order, so the
ALTER sequence does not follow the resolver ordering. -/
theorem claim_C3_counterexample :
    createForeignKeysTableOrder chainFks = ["s_a", "s_b"] ∧
    dataLoadTableOrder chainTables chainFks = ["s_c", "s_b", "s_a"] ∧
    List.indexOf "s_b" (dataLoadTableOrder chainTables chainFks) <
      List.indexOf "s_a" (dataLoadTableOrder chainTables chainFks) := by
  exact ⟨by decide, by decide, by decide⟩

/-- Claim C3, amended: the resolver ordering governs only the phase-3
data-load loop; phase 2 issues its ALTER TABLE statements in foreign-key list
order (it runs before the resolver is even called).  Concretely, the load
order of the A→B→C scenario is [C, B, A]. -/
theorem claim_C3_amended :
    (∀ (tables : List TableRef) (fks : List ForeignKey),
      (migratePlan tables fks).phase3LoadOrder = sortTablesByDependencies tables fks ∧
      (migratePlan tables fks).phase2AlterTables = fks.map fkSourceTable) ∧
    (migratePlan chainTables chainFks).phase3LoadOrder =
      [⟨"s", "c"⟩, ⟨"s", "b"⟩, ⟨"s", "a"⟩] :=
  ⟨fun _ _ => ⟨rfl, rfl⟩, by decide⟩

/-- Claim C2, counterexample: with a table name containing a dot, the output
does not contain the input table at all (the name is truncated when the
internal key is split), refuting the unrestricted claim that every input
table appears exactly once. -/
theorem claim_C2_counterexample :
    sortTablesByDependencies [⟨"dbo", "x.y"⟩] [] = [⟨"dbo", "x"⟩] ∧
    (sortTablesByDependencies [⟨"dbo", "x.y"⟩] []).count ⟨"dbo", "x.y"⟩ = 0 := by
  exact ⟨by decide, by decide⟩

/-- Claim C2, witness: the dot-free scenario tables each appear exactly once. -/
theorem claim_C2_witness :
    (∀ t ∈ chainTables, '.' ∉ t.schema_name.data ∧ '.' ∉ t.table_name.data) ∧
    (sortTablesByDependencies chainTables chainFks).count ⟨"s", "a"⟩ = 1 :=
  ⟨by decide, claim_C2_amended.2.1 chainTables chainFks (by decide) ⟨"s", "a"⟩ (by decide)⟩

/-- Claim C10, witness: truncation at the first dot for a concrete dotted
table name, and containment for a concrete dot-free table set. -/
theorem claim_C10_witness :
    sortTablesByDependencies [⟨"dbo", "a.b"⟩] [] = [⟨"dbo", truncDot "a.b"⟩] ∧
    (⟨"s", "a"⟩ : TableRef) ∈ sortTablesByDependencies chainTables chainFks :=
  ⟨claim_C10_roundtrip.2 "dbo" "a.b" [] (by decide),
   (claim_C10_roundtrip.1 chainTables chainFks (by decide) ⟨"s", "a"⟩).mpr (by decide)⟩
